import Mathlib

/-!
Verification of the sv-modular scaffolding generator.

JavaScript strings are embedded as lists of character code points
(`List Nat`).  Pure helper functions (`toKebab`, `toPascal`, `plural`,
`parseModulePath`, `buildRoutePath`) are translated directly from
`src/create-module.ts` and `src/generator.ts`.  The CRUD service code that
the backend generator emits (filter, insert, delete) is embedded as pure
functions over an explicit store, and the generator's filesystem effects
are embedded as a transition on a small filesystem state recording the
directories, file paths, log messages and manifest entries it touches.
-/

set_option maxRecDepth 8000

namespace SvModular

/-- Embedding of a JavaScript string as its list of character code points. -/
abbrev Str := List Nat

/-- Convenience conversion from a Lean string literal to the embedding. -/
def strLit (s : String) : Str := s.toList.map Char.toNat

/-- Code points matched by the JavaScript regexp class `\s` (also the set
removed by `String.prototype.trim`). -/
def isWS (c : Nat) : Bool :=
  c == 9 || c == 10 || c == 11 || c == 12 || c == 13 || c == 32 || c == 160 ||
  c == 0x1680 || (0x2000 ≤ c && c ≤ 0x200a) || c == 0x2028 || c == 0x2029 ||
  c == 0x202f || c == 0x205f || c == 0x3000 || c == 0xfeff

/-- Code points matched by the class `[\s_]` used in `toKebab`. -/
def isSep (c : Nat) : Bool := isWS c || c == 95

/-- Model of `toLowerCase` on one code point (ASCII simple case mapping). -/
def lowerChar (c : Nat) : Nat := if 65 ≤ c ∧ c ≤ 90 then c + 32 else c

/-- Model of `toUpperCase` on one code point (ASCII simple case mapping). -/
def upperChar (c : Nat) : Nat := if 97 ≤ c ∧ c ≤ 122 then c - 32 else c

/-- Model of `String.prototype.trim`: drop whitespace from both ends. -/
def jsTrim (s : Str) : Str :=
  ((s.dropWhile isWS).reverse.dropWhile isWS).reverse

/-- Model of `replace(/[\s_]+/g, "-")`: every maximal run of separator
characters becomes a single hyphen (code point 45).  The boolean argument
records whether the previous character belonged to a separator run. -/
def collapseSepAux : Bool → Str → Str
  | _, [] => []
  | inRun, c :: rest =>
    if isSep c then
      (if inRun then [] else [45]) ++ collapseSepAux true rest
    else
      c :: collapseSepAux false rest

/-- Replacement of every maximal `[\s_]+` run by one hyphen. -/
def collapseSep (s : Str) : Str := collapseSepAux false s

/-- Source `create-module.ts`: `toKebab(input)` is
`input.trim().toLowerCase().replace(/[\s_]+/g, "-")`. -/
def toKebab (s : Str) : Str := collapseSep ((jsTrim s).map lowerChar)

/-- Source `create-module.ts`: `capitalize` of the generator templates,
`str.charAt(0).toUpperCase() + str.slice(1)`. -/
def capitalize : Str → Str
  | [] => []
  | c :: r => upperChar c :: r

/-- Source `create-module.ts`: `toPascal` splits on `-` or `/`, uppercases
each first character and concatenates. -/
def toPascal (s : Str) : Str :=
  ((s.splitOnP (fun c => c == 45 || c == 47)).map capitalize).flatten

/-- Source `generator.ts` `plural`: keep a trailing `s`, turn a trailing
`y` into `ies`, otherwise append `s`.  Code points: `s` = 115, `y` = 121. -/
def plural (s : Str) : Str :=
  if [115].isSuffixOf s then s
  else if [121].isSuffixOf s then s.dropLast ++ strLit "ies"
  else s ++ [115]

/-- Result record of `parseModulePath`.  `moduleName` is an `Option`
because indexing an empty JavaScript array yields `undefined`. -/
structure ParsedPath where
  moduleName : Option Str
  folderPath : Str
  parts : List Str
deriving DecidableEq

/-- Source `generator.ts` `parseModulePath`: split the input on `/`
(code point 47), keep the segments whose trim is nonempty, take the last
segment as the module name and rejoin with `/` for the folder path. -/
def parseModulePath (input : Str) : ParsedPath :=
  let parts := (input.splitOn 47).filter (fun v => !(jsTrim v).isEmpty)
  { moduleName := parts.getLast?
    folderPath := List.intercalate [47] parts
    parts := parts }

/-- Source `generator.ts` `buildRoutePath`.  On an empty segment list the
JavaScript code evaluates `plural(undefined)` and throws, which the
embedding models as `none`. -/
def buildRoutePath (parts : List Str) : Option Str :=
  match parts.getLast? with
  | none => none
  | some leaf =>
    let parents := List.intercalate [47] parts.dropLast
    let leafPlural := plural leaf
    some (if parents.isEmpty then leafPlural else parents ++ [47] ++ leafPlural)

/-- Spec-side wording of the kept path segments: split on `/` and discard
segments that are empty or whitespace-only. -/
def segmentsSpec (input : Str) : List Str :=
  (input.splitOn 47).filter (fun v => !v.all isWS)

/-- Spec-side wording of the derived route path: all segments except the
last joined with `/`, then the pluralized last segment appended; just the
pluralized leaf when there are no parent segments. -/
def routePathSpec (segs : List Str) : Str :=
  let lf := plural (segs.getLastD [])
  if segs.length ≤ 1 then lf
  else List.intercalate [47] segs.dropLast ++ [47] ++ lf

/-- Decimal rendering of a JavaScript number used by the template
interpolations, restricted to naturals. -/
def jsNumToStr (n : Nat) : Str := (Nat.toDigits 10 n).map Char.toNat

/-- Record shape of the generated `types.ts` interface: id, name, email,
address and a numeric age (ages in this development are integers). -/
structure Item where
  id : Str
  name : Str
  email : Str
  address : Str
  age : Int
deriving DecidableEq

/-- Array literal produced by `templateValues` in `generator.ts`: five
records with `age = 20 + i`, the module name capitalized plus
a one-based index in the name, a synthetic email and address.
`crypto.randomUUID()` is abstracted by the `uuid` argument. -/
def seedData (name : Str) (uuid : Nat → Str) : List Item :=
  (List.range 5).map (fun i =>
    { id := uuid i
      name := capitalize name ++ strLit " User " ++ jsNumToStr (i + 1)
      email := name ++ jsNumToStr (i + 1) ++ strLit "@example.com"
      address := strLit "City " ++ jsNumToStr (i + 1)
      age := 20 + (i : Int) })

/-- Model of `String.prototype.includes`: the needle occurs contiguously
somewhere in the haystack. -/
def isSubstr (needle : Str) : Str → Bool
  | [] => needle.isEmpty
  | c :: t => needle.isPrefixOf (c :: t) || isSubstr needle t

/-- Query parameters read by the generated filter function.  `none`
models an absent parameter (JavaScript `query.get` returning `null`). -/
structure Query where
  address : Option Str
  age : Option Str
  s : Option Str
deriving DecidableEq

/-- Embedding of the generated `filterX` function in `templateServices`
(`generator.ts`).  `parseNum` abstracts the JavaScript `Number`
conversion, with `none` standing for `NaN`.  Each `if (param)` truthiness
test becomes a nonemptiness check on the optional string. -/
def getAllFilter (parseNum : Str → Option Int) (store : List Item)
    (q : Query) : List Item :=
  let list := store
  let list := match q.address with
    | some a =>
      if a.isEmpty then list
      else list.filter (fun x => x.address.map lowerChar == a.map lowerChar)
    | none => list
  let list := match q.age with
    | some a =>
      if a.isEmpty then list
      else match parseNum a with
        | some n => list.filter (fun x => x.age == n)
        | none => list
    | none => list
  match q.s with
  | some k =>
    if k.isEmpty then list
    else list.filter (fun x => isSubstr (k.map lowerChar) (x.name.map lowerChar))
  | none => list

/-- Embedding of the generated `getAllX`: without a query the whole store
is returned, otherwise the filtered list. -/
def getAllMod (parseNum : Str → Option Int) (store : List Item)
    (q : Option Query) : List Item :=
  match q with
  | none => store
  | some q => getAllFilter parseNum store q

/-- Spec-side address condition: case-insensitive exact match on the
address field (vacuously true when the parameter is absent or empty). -/
def addrPred (q : Query) (x : Item) : Bool :=
  match q.address with
  | some a => if a.isEmpty then true else x.address.map lowerChar == a.map lowerChar
  | none => true

/-- Spec-side age condition: exact numeric match, vacuously true when the
parameter is absent, empty or not parseable. -/
def agePred (parseNum : Str → Option Int) (q : Query) (x : Item) : Bool :=
  match q.age with
  | some a =>
    if a.isEmpty then true
    else match parseNum a with
      | some n => x.age == n
      | none => true
  | none => true

/-- Spec-side search condition: case-insensitive substring match against
the name field only. -/
def searchPred (q : Query) (x : Item) : Bool :=
  match q.s with
  | some k =>
    if k.isEmpty then true
    else isSubstr (k.map lowerChar) (x.name.map lowerChar)
  | none => true

/-- Parsed JSON body of an insert request; absent properties are `none`. -/
structure Body where
  name : Option Str
  email : Option Str
  address : Option Str
  age : Option Str
deriving DecidableEq

/-- Truthiness of an optional string property (`undefined`, `null` and
the empty string are falsy). -/
def truthy : Option Str → Bool
  | some l => !l.isEmpty
  | none => false

/-- Embedding of the generated `insertX`: reject a body without truthy
name and email, otherwise append a fresh record built from the body,
defaulting address to the empty string and age to `Number(body.age) || 0`
(zero when absent or `NaN`).  Returns the new store and the created item. -/
def insertMod (parseNum : Str → Option Int) (uuid : Str) (store : List Item)
    (body : Body) : Except Unit (List Item × Item) :=
  if !truthy body.name || !truthy body.email then .error ()
  else
    let item : Item :=
      { id := uuid
        name := body.name.getD []
        email := body.email.getD []
        address := body.address.getD []
        age := (body.age.bind parseNum).getD 0 }
    .ok (store ++ [item], item)

/-- Embedding of the generated `deleteXById`: find the first index whose
id matches, splice exactly that element out and return it; not-found
leaves the store untouched. -/
def deleteMod (store : List Item) (idv : Str) :
    Except Unit (List Item × Option Item) :=
  match store.findIdx? (fun x => x.id == idv) with
  | none => .error ()
  | some i => .ok (store.eraseIdx i, store.get? i)

/-- Entry of the `module.json` manifest.  The frontend generator pushes
objects with a name and a route; the backend generator pushes bare path
strings. -/
inductive ManEntry where
  | str (s : Str)
  | obj (name route : Str)
deriving DecidableEq

/-- JavaScript `m.name` on a manifest entry: `undefined` on a bare
string, the name property on an object. -/
def entryName : ManEntry → Option Str
  | .str _ => none
  | .obj n _ => some n

/-- Duplicate test of `updateModuleJson` in `generator.ts`: a bare string
equal to the path, or an object whose name equals the path. -/
def entryMatchesServer (p : Str) : ManEntry → Bool
  | .str s => s == p
  | .obj n _ => n == p

/-- Source `generator.ts` `updateModuleJson`: push the path string unless
some entry already matches it. -/
def updateModuleJsonServer (mods : List ManEntry) (p : Str) : List ManEntry :=
  if mods.any (entryMatchesServer p) then mods else mods ++ [.str p]

/-- Manifest update of the frontend generator: remove every entry whose
name equals the new module name, then push the new object entry. -/
def updateModulesFrontend (mods : List ManEntry) (name route : Str) :
    List ManEntry :=
  (mods.filter (fun m => !(entryName m == some name))) ++ [.obj name route]

/-- Source `create-module.ts` (standalone backend script): push the path
string unless `modules.includes(pathString)`; `includes` uses strict
equality, so only bare string entries can match. -/
def updateModuleJsonStandalone (mods : List ManEntry) (p : Str) : List ManEntry :=
  if mods.contains (.str p) then mods else mods ++ [.str p]

/-- Filesystem state touched by the generators: created directories,
written file paths, appended log messages (without timestamps) and the
parsed manifest entry list.  File contents are abstracted to their paths
because no claim concerns the template text itself. -/
structure FS where
  dirs : List Str
  files : List Str
  logMsgs : List Str
  modules : List ManEntry
deriving DecidableEq

/-- Failure modes of one backend generator invocation: the uncaught
`TypeError` thrown by `plural(undefined)` on an all-blank path, or the
explicit already-exists guard (`process.exit(1)`). -/
inductive GenErr where
  | crash
  | already
deriving DecidableEq

/-- Writes performed by `generateServerModule` after the guard passes:
ensure the response helper, create the module folder, write the four
module files, create the route directories and the two route handlers,
append the log line and update the manifest. -/
def serverWrites (fs : FS) (raw folderPath pluralRoute : Str) : FS :=
  let moduleFolder := strLit "src/lib/modules/" ++ folderPath
  let helperDir := strLit "src/lib/helpers"
  let helperFile := strLit "src/lib/helpers/response.ts"
  let fs1 := if helperDir ∈ fs.dirs then fs
    else { fs with dirs := fs.dirs ++ [helperDir] }
  let fs2 := if helperFile ∈ fs1.files then fs1
    else { fs1 with
            files := fs1.files ++ [helperFile]
            logMsgs := fs1.logMsgs ++ [strLit "Created response helper"] }
  let routeDir := strLit "src/routes/api/" ++ pluralRoute
  let fs3 := { fs2 with
    dirs := fs2.dirs ++ [moduleFolder, routeDir, routeDir ++ strLit "/[id]"]
    files := fs2.files ++
      [moduleFolder ++ strLit "/types.ts",
       moduleFolder ++ strLit "/values.ts",
       moduleFolder ++ strLit "/services.ts",
       moduleFolder ++ strLit "/spec.md",
       routeDir ++ strLit "/+server.ts",
       routeDir ++ strLit "/[id]/+server.ts"] }
  { fs3 with
    logMsgs := fs3.logMsgs ++ [strLit "Generated module: " ++ raw]
    modules := updateModuleJsonServer fs3.modules raw }

/-- Source `generator.ts` `generateServerModule`: parse the path, build
the plural route (throwing on an empty segment list), abort when the
module folder already exists, otherwise perform all writes.  The returned
state is unchanged on both error paths because the throw and the guard
both precede every write. -/
def generateServerModule (fs : FS) (raw : Str) : FS × Option GenErr :=
  let pm := parseModulePath raw
  match buildRoutePath pm.parts with
  | none => (fs, some .crash)
  | some pluralRoute =>
    if strLit "src/lib/modules/" ++ pm.folderPath ∈ fs.dirs then
      (fs, some .already)
    else
      (serverWrites fs raw pm.folderPath pluralRoute, none)

/-- Source `generators/frontend.ts` `generateFrontendModule`: kebab the
name, derive the route, create the module and route directories
(recursively, with no existence guard), write the five module files and
the route page, append the log line and update the manifest.  It never
aborts on an existing module directory. -/
def generateFrontendModule (fs : FS) (inputName : Str) (routeOpt : Option Str) :
    FS × Option GenErr :=
  let raw := toKebab inputName
  let routePath := match routeOpt with
    | some r => if r.isEmpty then raw else r
    | none => raw
  let modulePath := strLit "src/lib/modules/" ++ raw
  let routeFull := strLit "src/routes/" ++ routePath
  let pageName := toPascal raw ++ strLit "Page"
  let fs1 := { fs with
    dirs := fs.dirs ++ [modulePath ++ strLit "/components", routeFull]
    files := fs.files ++
      [modulePath ++ strLit "/store.ts",
       modulePath ++ strLit "/types.ts",
       modulePath ++ strLit "/service.ts",
       modulePath ++ strLit "/values.ts",
       modulePath ++ strLit "/" ++ pageName ++ strLit ".svelte",
       routeFull ++ strLit "/+page.svelte"] }
  ({ fs1 with
      logMsgs := fs1.logMsgs ++
        [strLit "Created module: " ++ raw ++ strLit " | route: " ++ routePath]
      modules := updateModulesFrontend fs1.modules raw routePath }, none)

/-! Helper lemmas about the normalizer and the path parser. -/

theorem lowerChar_idem (c : Nat) : lowerChar (lowerChar c) = lowerChar c := by
  simp only [lowerChar]
  split
  · split <;> omega
  · rfl

theorem isSep_hyphen : isSep 45 = false := by decide

theorem mem_collapseSepAux {c : Nat} {l : Str} :
    ∀ {b : Bool}, c ∈ collapseSepAux b l → c = 45 ∨ c ∈ l := by
  induction l with
  | nil => intro b h; simp [collapseSepAux] at h
  | cons d t ih =>
    intro b h
    rw [collapseSepAux] at h
    by_cases hd : isSep d
    · rw [if_pos hd] at h
      rcases List.mem_append.1 h with h1 | h1
      · left
        cases b <;> simp at h1
        exact h1
      · rcases ih h1 with h2 | h2
        · exact Or.inl h2
        · exact Or.inr (List.mem_cons_of_mem _ h2)
    · rw [if_neg hd] at h
      rcases List.mem_cons.1 h with h1 | h1
      · exact Or.inr (h1 ▸ List.mem_cons_self _ _)
      · rcases ih h1 with h2 | h2
        · exact Or.inl h2
        · exact Or.inr (List.mem_cons_of_mem _ h2)

theorem not_isSep_mem_collapseSepAux {c : Nat} {l : Str} :
    ∀ {b : Bool}, c ∈ collapseSepAux b l → isSep c = false := by
  induction l with
  | nil => intro b h; simp [collapseSepAux] at h
  | cons d t ih =>
    intro b h
    rw [collapseSepAux] at h
    by_cases hd : isSep d
    · rw [if_pos hd] at h
      rcases List.mem_append.1 h with h1 | h1
      · cases b <;> simp at h1
        subst h1; exact isSep_hyphen
      · exact ih h1
    · rw [if_neg hd] at h
      rcases List.mem_cons.1 h with h1 | h1
      · subst h1; exact Bool.eq_false_iff.2 hd
      · exact ih h1

theorem collapseSepAux_of_noSep {l : Str} (h : ∀ c ∈ l, isSep c = false) :
    ∀ b, collapseSepAux b l = l := by
  induction l with
  | nil => intro b; rfl
  | cons d t ih =>
    intro b
    rw [collapseSepAux,
      if_neg (by simp [h d (List.mem_cons_self d t)]),
      ih (fun c hc => h c (List.mem_cons_of_mem _ hc))]

theorem dropWhile_eq_self_of_all {p : Nat → Bool} {l : Str}
    (h : ∀ c ∈ l, p c = false) : l.dropWhile p = l := by
  cases l with
  | nil => rfl
  | cons a t =>
    exact List.dropWhile_cons_of_neg (by simp [h a (List.mem_cons_self a t)])

theorem jsTrim_of_noWS {l : Str} (h : ∀ c ∈ l, isWS c = false) : jsTrim l = l := by
  unfold jsTrim
  rw [dropWhile_eq_self_of_all h,
    dropWhile_eq_self_of_all (fun c hc => h c (List.mem_reverse.1 hc)),
    List.reverse_reverse]

theorem isWS_eq_false_of_not_isSep {c : Nat} (h : isSep c = false) :
    isWS c = false := by
  revert h
  unfold isSep
  cases hw : isWS c <;> simp

/-- C9: for every input string, applying `toKebab` twice gives the same
result as applying it once; `toKebab` (trim, lowercase, collapse
whitespace and underscore runs to single hyphens) is a total function and
is idempotent. -/
theorem toKebab_idempotent (s : Str) : toKebab (toKebab s) = toKebab s := by
  have hns : ∀ c ∈ toKebab s, isSep c = false := fun c hc =>
    not_isSep_mem_collapseSepAux hc
  have hnw : ∀ c ∈ toKebab s, isWS c = false := fun c hc =>
    isWS_eq_false_of_not_isSep (hns c hc)
  have hlc : ∀ c ∈ toKebab s, lowerChar c = c := by
    intro c hc
    rcases mem_collapseSepAux hc with h | h
    · subst h; rfl
    · rcases List.mem_map.1 h with ⟨d, _, rfl⟩
      exact lowerChar_idem d
  show collapseSepAux false ((jsTrim (toKebab s)).map lowerChar) = toKebab s
  rw [jsTrim_of_noWS hnw, List.map_congr_left hlc, List.map_id',
    collapseSepAux_of_noSep hns]

theorem singleSuffix_iff {c : Nat} {s : Str} :
    [c].isSuffixOf s = true ↔ s.getLast? = some c := by
  rw [List.isSuffixOf_iff_suffix, List.getLast?_eq_some_iff]
  constructor
  · rintro ⟨t, rfl⟩
    exact ⟨t, rfl⟩
  · rintro ⟨t, rfl⟩
    exact ⟨t, rfl⟩

/-- C1: the pluralizer keeps a string whose last character is `s`
unchanged, replaces a final `y` by `ies`, and otherwise appends `s`; in
particular `category` becomes `categories`, `song` becomes `songs` and
`status` stays `status`.  Code points: `s` = 115, `y` = 121. -/
theorem plural_rule (s : Str) :
    plural s =
      (if s.getLast? = some 115 then s
       else if s.getLast? = some 121 then s.dropLast ++ strLit "ies"
       else s ++ [115]) ∧
    plural (strLit "category") = strLit "categories" ∧
    plural (strLit "song") = strLit "songs" ∧
    plural (strLit "status") = strLit "status" := by
  refine ⟨?_, by decide, by decide, by decide⟩
  unfold plural
  by_cases h1 : s.getLast? = some 115
  · rw [if_pos (singleSuffix_iff.2 h1), if_pos h1]
  · rw [if_neg (fun hs => h1 (singleSuffix_iff.1 hs)), if_neg h1]
    by_cases h2 : s.getLast? = some 121
    · rw [if_pos (singleSuffix_iff.2 h2), if_pos h2]
    · rw [if_neg (fun hs => h2 (singleSuffix_iff.1 hs)), if_neg h2]

theorem jsTrim_eq_nil_iff {v : Str} : jsTrim v = [] ↔ v.all isWS = true := by
  unfold jsTrim
  rw [List.reverse_eq_nil_iff, List.dropWhile_eq_nil_iff, List.all_eq_true]
  constructor
  · intro h x hx
    have hx' : x ∈ v.takeWhile isWS ++ v.dropWhile isWS := by
      rw [List.takeWhile_append_dropWhile]; exact hx
    rcases List.mem_append.1 hx' with h1 | h1
    · exact List.mem_takeWhile_imp h1
    · exact h x (List.mem_reverse.2 h1)
  · intro h x hx
    exact h x ((List.dropWhile_sublist _).subset (List.mem_reverse.1 hx))

theorem filter_trim_eq (input : Str) :
    (input.splitOn 47).filter (fun v => !(jsTrim v).isEmpty) =
      segmentsSpec input := by
  unfold segmentsSpec
  refine List.filter_congr (fun v _ => ?_)
  have hv : (jsTrim v).isEmpty = v.all isWS := by
    rw [Bool.eq_iff_iff, List.isEmpty_iff]
    exact jsTrim_eq_nil_iff
  rw [hv]

theorem parts_eq_segmentsSpec (input : Str) :
    (parseModulePath input).parts = segmentsSpec input := by
  simp only [parseModulePath]
  exact filter_trim_eq input

theorem segments_ne_nil {input p : Str} (h : p ∈ segmentsSpec input) :
    p ≠ [] := by
  have hp := List.of_mem_filter h
  intro he
  subst he
  simp at hp

theorem intercalate_ne_nil_of {segs : List Str} (hne : segs ≠ [])
    (h : ∀ p ∈ segs, p ≠ []) : List.intercalate [47] segs ≠ [] := by
  match segs, hne with
  | [x], _ =>
    simpa [List.intercalate, List.intersperse] using h x (List.mem_cons_self _ _)
  | x :: y :: t, _ =>
    simp [List.intercalate, List.intersperse, List.append_eq_nil]

theorem buildRoutePath_eq_spec {segs : List Str} (hne : segs ≠ [])
    (h : ∀ p ∈ segs, p ≠ []) :
    buildRoutePath segs = some (routePathSpec segs) := by
  match segs, hne with
  | [x], _ =>
    simp [buildRoutePath, routePathSpec, List.intercalate, List.intersperse]
  | x :: y :: t, _ =>
    obtain ⟨leaf, hleaf⟩ : ∃ a, (x :: y :: t).getLast? = some a :=
      Option.isSome_iff_exists.1 (List.getLast?_isSome.2 (by simp))
    have hdl : List.intercalate [47] (x :: y :: t).dropLast ≠ [] := by
      refine intercalate_ne_nil_of (by simp) (fun p hp => ?_)
      exact h p ((List.dropLast_sublist _).subset hp)
    unfold buildRoutePath routePathSpec
    rw [hleaf]
    simp only [List.getLastD_eq_getLast?, hleaf, Option.getD_some]
    rw [if_neg (by simpa [List.isEmpty_iff] using hdl), if_neg (by simp)]

/-- C2: the path parser keeps exactly the segments that are not
whitespace-only, the folder path is those segments rejoined with `/`, and
the route path is the parent segments joined with `/` followed by the
pluralized leaf (just the pluralized leaf without parents). -/
theorem parse_route_spec (input : Str) (h : segmentsSpec input ≠ []) :
    (parseModulePath input).parts = segmentsSpec input ∧
    (parseModulePath input).folderPath =
      List.intercalate [47] (segmentsSpec input) ∧
    buildRoutePath (parseModulePath input).parts =
      some (routePathSpec (segmentsSpec input)) := by
  refine ⟨parts_eq_segmentsSpec input, ?_, ?_⟩
  · simp only [parseModulePath]
    rw [filter_trim_eq]
  · rw [parts_eq_segmentsSpec]
    exact buildRoutePath_eq_spec h (fun p hp => segments_ne_nil hp)

/-- Witness for C2 at the spec's example path `bands/linkinpark/song`:
the module directory is `bands/linkinpark/song` and the route path is
`bands/linkinpark/songs`. -/
theorem parse_route_spec_witness :
    segmentsSpec (strLit "bands/linkinpark/song") ≠ [] ∧
    (parseModulePath (strLit "bands/linkinpark/song")).folderPath =
      strLit "bands/linkinpark/song" ∧
    buildRoutePath (parseModulePath (strLit "bands/linkinpark/song")).parts =
      some (strLit "bands/linkinpark/songs") := by
  have h : segmentsSpec (strLit "bands/linkinpark/song") ≠ [] := by decide
  refine ⟨h, ?_, ?_⟩
  · exact (parse_route_spec _ h).2.1.trans (by decide)
  · exact (parse_route_spec _ h).2.2.trans (by decide)

/-! Claims about the generator's guard behaviour and partiality. -/

theorem buildRoutePath_isSome_of_ne_nil {parts : List Str} (h : parts ≠ []) :
    ∃ r, buildRoutePath parts = some r := by
  obtain ⟨leaf, hleaf⟩ : ∃ a, parts.getLast? = some a :=
    Option.isSome_iff_exists.1 (List.getLast?_isSome.2 h)
  unfold buildRoutePath
  rw [hleaf]
  exact ⟨_, rfl⟩

/-- C10: when the input has at least one segment that is not
whitespace-only, the parser yields a leaf name, namely the last kept
segment; when every segment is blank, the parser yields no leaf name and
an empty folder path, and the backend generator performs no usage-error
check for this case: it proceeds into `buildRoutePath`, where
`plural(undefined)` throws, before touching the filesystem. -/
theorem parse_blank_behavior (input : Str) :
    ((∃ seg ∈ input.splitOn 47, ¬seg.all isWS = true) →
      (parseModulePath input).moduleName = (segmentsSpec input).getLast? ∧
      ∃ v, (parseModulePath input).moduleName = some v) ∧
    ((∀ seg ∈ input.splitOn 47, seg.all isWS = true) →
      (parseModulePath input).moduleName = none ∧
      (parseModulePath input).folderPath = [] ∧
      ∀ fs : FS, generateServerModule fs input = (fs, some GenErr.crash)) := by
  have hmn : (parseModulePath input).moduleName = (segmentsSpec input).getLast? := by
    simp only [parseModulePath]
    rw [filter_trim_eq]
  constructor
  · intro ⟨seg, hseg, hblank⟩
    have hne : segmentsSpec input ≠ [] := by
      intro he
      rw [segmentsSpec, List.filter_eq_nil_iff] at he
      exact (he seg hseg) (by simpa using hblank)
    refine ⟨hmn, ?_⟩
    rw [hmn]
    exact Option.isSome_iff_exists.1 (List.getLast?_isSome.2 hne)
  · intro hall
    have hse : segmentsSpec input = [] := by
      rw [segmentsSpec, List.filter_eq_nil_iff]
      intro seg hseg
      simp [hall seg hseg]
    have hparts : (parseModulePath input).parts = [] := by
      rw [parts_eq_segmentsSpec, hse]
    refine ⟨by rw [hmn, hse]; rfl, ?_, ?_⟩
    · show List.intercalate [47] (parseModulePath input).parts = []
      rw [hparts]
      rfl
    · intro fs
      simp only [generateServerModule, hparts]
      rfl

/-- Witness for C10 at the blank input `/`: no leaf name, empty folder
path, and the backend generator crashes before writing anything. -/
theorem parse_blank_behavior_witness :
    (parseModulePath (strLit "/")).moduleName = none ∧
    (parseModulePath (strLit "/")).folderPath = [] ∧
    generateServerModule ⟨[], [], [], []⟩ (strLit "/") =
      (⟨[], [], [], []⟩, some GenErr.crash) := by
  obtain ⟨h1, h2, h3⟩ := (parse_blank_behavior (strLit "/")).2 (by decide)
  exact ⟨h1, h2, h3 _⟩

/-- C3 (amended): the already-exists guard belongs to the backend
generator only: when the target module directory exists,
`generateServerModule` aborts with a non-zero exit before any write, the
state coming back unchanged.  The frontend generator has no such guard
(see the counterexample). -/
theorem server_guard (fs : FS) (raw : Str)
    (hp : (parseModulePath raw).parts ≠ [])
    (hex : strLit "src/lib/modules/" ++ (parseModulePath raw).folderPath ∈ fs.dirs) :
    generateServerModule fs raw = (fs, some GenErr.already) := by
  obtain ⟨r, hr⟩ := buildRoutePath_isSome_of_ne_nil hp
  simp only [generateServerModule, hr]
  rw [if_pos hex]

/-- Witness for C3's backend half: a module directory that already
exists makes the backend run abort with the state untouched. -/
theorem server_guard_witness :
    generateServerModule ⟨[strLit "src/lib/modules/song"], [], [], []⟩
        (strLit "song") =
      (⟨[strLit "src/lib/modules/song"], [], [], []⟩, some GenErr.already) :=
  server_guard _ _ (by decide) (by decide)

/-- Counterexample to C3 as stated: the frontend generator, invoked while
its target module directory `src/lib/modules/foo` already exists, does
not abort (no error is signalled) and still performs writes, so the
"aborts before any file is written" property does not hold for the
frontend `create` command. -/
theorem frontend_no_guard :
    (generateFrontendModule ⟨[strLit "src/lib/modules/foo"], [], [], []⟩
        (strLit "foo") none).2 = none ∧
    (generateFrontendModule ⟨[strLit "src/lib/modules/foo"], [], [], []⟩
        (strLit "foo") none).1.files ≠ [] := by
  refine ⟨rfl, ?_⟩
  decide

theorem mem_dirs_serverWrites (fs : FS) (raw folderPath pluralRoute : Str) :
    strLit "src/lib/modules/" ++ folderPath ∈
      (serverWrites fs raw folderPath pluralRoute).dirs := by
  simp only [serverWrites]
  split <;> split <;> simp

/-- C4: when a backend generation run succeeds, running the backend
generator again with the same raw path aborts with the already-exists
error and returns the filesystem state unchanged: no module files, no
route files, no manifest entry and no log line are added. -/
theorem server_second_run (fs fs2 : FS) (raw : Str)
    (h : generateServerModule fs raw = (fs2, none)) :
    generateServerModule fs2 raw = (fs2, some GenErr.already) := by
  rcases hbr : buildRoutePath (parseModulePath raw).parts with _ | r
  · rw [generateServerModule] at h
    simp only [hbr] at h
    exact absurd (congrArg Prod.snd h) (by simp)
  · rw [generateServerModule] at h
    simp only [hbr] at h
    by_cases hex : strLit "src/lib/modules/" ++ (parseModulePath raw).folderPath ∈ fs.dirs
    · rw [if_pos hex] at h
      exact absurd (congrArg Prod.snd h) (by simp)
    · rw [if_neg hex] at h
      have hfs2 : fs2 = serverWrites fs raw (parseModulePath raw).folderPath r :=
        (congrArg Prod.fst h).symm
      simp only [generateServerModule, hbr]
      rw [if_pos (by rw [hfs2]; exact mem_dirs_serverWrites _ _ _ _)]

/-- Witness for C4: generating `bands/linkinpark/song` on an empty
project and then generating it again yields the already-exists abort with
the state of the first run unchanged. -/
theorem server_second_run_witness :
    generateServerModule
        (generateServerModule ⟨[], [], [], []⟩ (strLit "bands/linkinpark/song")).1
        (strLit "bands/linkinpark/song") =
      ((generateServerModule ⟨[], [], [], []⟩ (strLit "bands/linkinpark/song")).1,
        some GenErr.already) := by
  exact server_second_run ⟨[], [], [], []⟩ _ _ (by decide)

/-! Claims about the manifest updaters and the generated seed and CRUD code. -/

/-- Counterexample to C8 as stated: the CLI backend updater skips the
append when an object entry's name equals the path string, even though no
entry equal to that exact string exists in the list, so "appends if and
only if no entry equal to that exact string already exists" fails. -/
theorem manifest_server_skip_on_object :
    ManEntry.str (strLit "song") ∉
      [ManEntry.obj (strLit "song") (strLit "songs")] ∧
    updateModuleJsonServer [ManEntry.obj (strLit "song") (strLit "songs")]
        (strLit "song") =
      [ManEntry.obj (strLit "song") (strLit "songs")] := by
  exact ⟨by decide, by decide⟩

/-- C8 (amended): the frontend updater removes every entry named like the
new module and pushes the new object entry last; the standalone backend
script appends the path string iff no entry equal to that exact string
exists; the CLI backend generator appends iff no entry matches the path,
where an object entry matches already when its name equals the path. -/
theorem manifest_update_spec (mods : List ManEntry) (name route p : Str) :
    (updateModulesFrontend mods name route).getLast? =
      some (ManEntry.obj name route) ∧
    (∀ m ∈ updateModulesFrontend mods name route,
      entryName m = some name → m = ManEntry.obj name route) ∧
    (∀ m ∈ mods, entryName m ≠ some name →
      m ∈ updateModulesFrontend mods name route) ∧
    (ManEntry.str p ∉ mods →
      updateModuleJsonStandalone mods p = mods ++ [ManEntry.str p]) ∧
    (ManEntry.str p ∈ mods → updateModuleJsonStandalone mods p = mods) ∧
    ((∀ m ∈ mods, entryMatchesServer p m = false) →
      updateModuleJsonServer mods p = mods ++ [ManEntry.str p]) ∧
    ((∃ m ∈ mods, entryMatchesServer p m = true) →
      updateModuleJsonServer mods p = mods) := by
  refine ⟨List.getLast?_concat _, ?_, ?_, ?_, ?_, ?_, ?_⟩
  · intro m hm hname
    rcases List.mem_append.1 hm with h1 | h1
    · have := List.of_mem_filter h1
      simp [hname] at this
    · simpa using h1
  · intro m hm hname
    refine List.mem_append_left _ (List.mem_filter.2 ⟨hm, ?_⟩)
    simp [hname]
  · intro hnm
    rw [updateModuleJsonStandalone, if_neg]
    simpa using hnm
  · intro hmem
    rw [updateModuleJsonStandalone, if_pos]
    simpa using hmem
  · intro hall
    rw [updateModuleJsonServer, if_neg]
    rw [List.any_eq_true]
    rintro ⟨m, hm, hp⟩
    rw [hall m hm] at hp
    cases hp
  · intro ⟨m, hm, hp⟩
    rw [updateModuleJsonServer, if_pos (List.any_eq_true.2 ⟨m, hm, hp⟩)]

/-- Witness for C8 (amended) on an empty manifest: the standalone backend
updater appends the new path string. -/
theorem manifest_update_spec_witness :
    updateModuleJsonStandalone [] (strLit "user") =
      [ManEntry.str (strLit "user")] := by
  have h := (manifest_update_spec [] [] [] (strLit "user")).2.2.2.1
  exact (h (by decide)).trans (by simp)

/-- C6: the generated seed array contains exactly five records, their
ages are 20, 21, 22, 23, 24 in order (age = 20 + index), their
identifiers are pairwise distinct whenever the identifier generator is
injective on the five indices, and each name is derived from the
capitalized module name plus the one-based record index. -/
theorem seed_spec (name : Str) (uuid : Nat → Str)
    (hinj : ∀ i j, i < 5 → j < 5 → uuid i = uuid j → i = j) :
    (seedData name uuid).length = 5 ∧
    (seedData name uuid).map (fun x => x.age) = [20, 21, 22, 23, 24] ∧
    (∀ i, ∀ h : i < (seedData name uuid).length,
      ((seedData name uuid).get ⟨i, h⟩).age = 20 + (i : Int)) ∧
    ((seedData name uuid).map (fun x => x.id)).Pairwise (· ≠ ·) ∧
    (∀ i, ∀ h : i < (seedData name uuid).length,
      ((seedData name uuid).get ⟨i, h⟩).name =
        capitalize name ++ strLit " User " ++ jsNumToStr (i + 1)) := by
  refine ⟨rfl, rfl, ?_, ?_, ?_⟩
  · intro i h
    simp [seedData, List.get_eq_getElem]
  · rw [seedData, List.map_map, List.pairwise_map]
    refine (List.pairwise_lt_range 5).imp_of_mem ?_
    intro a b ha hb hlt heq
    have := hinj a b (List.mem_range.1 ha) (List.mem_range.1 hb)
      (by simpa using heq)
    omega
  · intro i h
    simp [seedData, List.get_eq_getElem]

/-- Witness for C6 with the module name `song` and an injective concrete
identifier generator. -/
theorem seed_spec_witness :
    (seedData (strLit "song") (fun i => [i])).length = 5 ∧
    (seedData (strLit "song") (fun i => [i])).map (fun x => x.age) =
      [20, 21, 22, 23, 24] ∧
    ((seedData (strLit "song") (fun i => [i])).map (fun x => x.id)).Pairwise
      (· ≠ ·) := by
  have h := seed_spec (strLit "song") (fun i => [i])
    (fun i j _ _ hij => by simpa using hij)
  exact ⟨h.1, h.2.1, h.2.2.2.1⟩

/-- C7: a successful generated insert followed by a delete with the
returned record's identifier brings the store back to its size before the
insert (the delete always finds a record with that identifier and removes
exactly one element). -/
theorem insert_delete_size (parseNum : Str → Option Int) (uuid : Str)
    (store : List Item) (body : Body) (store2 : List Item) (item : Item)
    (h : insertMod parseNum uuid store body = .ok (store2, item)) :
    ∃ store3 removed, deleteMod store2 item.id = .ok (store3, removed) ∧
      store3.length = store.length := by
  rw [insertMod] at h
  by_cases hv : (!truthy body.name || !truthy body.email) = true
  · rw [if_pos hv] at h
    cases h
  · rw [if_neg hv] at h
    simp only [Except.ok.injEq, Prod.mk.injEq] at h
    obtain ⟨hs, hi⟩ := h
    have hmem : item ∈ store2 := by
      rw [← hs]
      exact List.mem_append_right _ (List.mem_singleton.2 hi.symm)
    have hfind : store2.findIdx? (fun x => x.id == item.id) =
        some (store2.findIdx (fun x => x.id == item.id)) :=
      List.findIdx?_eq_some_of_exists ⟨item, hmem, by simp⟩
    have hlt : store2.findIdx (fun x => x.id == item.id) < store2.length :=
      List.findIdx_lt_length_of_exists ⟨item, hmem, by simp⟩
    refine ⟨store2.eraseIdx (store2.findIdx (fun x => x.id == item.id)),
      store2.get? (store2.findIdx (fun x => x.id == item.id)), ?_, ?_⟩
    · rw [deleteMod, hfind]
    · rw [List.length_eraseIdx_of_lt hlt, ← hs]
      simp

/-- Witness for C7: inserting one valid record into the empty store and
deleting it by the returned identifier yields an empty store again. -/
theorem insert_delete_size_witness :
    ∃ store3 removed,
      deleteMod [({ id := [0], name := [97], email := [98], address := [], age := 0 } : Item)] [0] = .ok (store3, removed) ∧
      store3.length = 0 := by
  have h : insertMod (fun _ => none) [0] [] ⟨some [97], some [98], none, none⟩ =
      .ok ([{ id := [0], name := [97], email := [98], address := [], age := 0 }], { id := [0], name := [97], email := [98], address := [], age := 0 }) := by
    rfl
  simpa using insert_delete_size _ _ _ _ _ _ h

/-- C5: the generated list filter composes the case-insensitive exact
address match, the exact numeric age match (ignored when the value is not
parseable) and the case-insensitive name substring search by logical AND
over a copy of the store; the result is a sublist of the store (order
preserved, elements only removed); without filters all records come back
in store order, and an address value matching no record yields the empty
list. -/
theorem generated_filter_spec (parseNum : Str → Option Int) (store : List Item)
    (q : Query) :
    getAllFilter parseNum store q =
      store.filter (fun x => addrPred q x &&
        (agePred parseNum q x && searchPred q x)) ∧
    (getAllFilter parseNum store q).Sublist store ∧
    getAllMod parseNum store none = store ∧
    getAllFilter parseNum store ⟨none, none, none⟩ = store ∧
    (∀ a, parseNum a = none →
      getAllFilter parseNum store ⟨q.address, some a, q.s⟩ =
        getAllFilter parseNum store ⟨q.address, none, q.s⟩) ∧
    (∀ a, a ≠ [] →
      (∀ x ∈ store, ¬x.address.map lowerChar = a.map lowerChar) →
      getAllFilter parseNum store ⟨some a, q.age, q.s⟩ = []) := by
  obtain ⟨oa, og, os⟩ := q
  have hmain : getAllFilter parseNum store ⟨oa, og, os⟩ =
      store.filter (fun x => addrPred ⟨oa, og, os⟩ x &&
        (agePred parseNum ⟨oa, og, os⟩ x && searchPred ⟨oa, og, os⟩ x)) := by
    simp only [getAllFilter]
    repeat' split
    all_goals simp_all [addrPred, agePred, searchPred, Bool.and_assoc,
      Bool.and_comm, Bool.and_left_comm]
  refine ⟨hmain, ?_, rfl, by simp [getAllFilter], ?_, ?_⟩
  · rw [hmain]
    exact List.filter_sublist _
  · intro a hpa
    simp [getAllFilter, hpa]
  · intro a hne hnone
    have ha : a.isEmpty = false := by
      rcases he : a.isEmpty
      · rfl
      · exact absurd (List.isEmpty_iff.1 he) hne
    have hnil : store.filter
        (fun x => x.address.map lowerChar == a.map lowerChar) = [] := by
      rw [List.filter_eq_nil_iff]
      intro x hx
      simpa using hnone x hx
    rcases og with _ | g
    · rcases os with _ | k <;> simp [getAllFilter, ha, hnil]
    · rcases hpg : parseNum g with _ | n <;> rcases os with _ | k <;>
        simp [getAllFilter, ha, hnil, hpg]

/-- Witness for C5: on the seed store for module `song` an address filter
value matching no record yields the empty result. -/
theorem generated_filter_spec_witness :
    getAllFilter (fun _ => none) (seedData (strLit "song") (fun i => [i]))
      ⟨some (strLit "nowhere"), none, none⟩ = [] := by
  have h := (generated_filter_spec (fun _ => none)
      (seedData (strLit "song") (fun i => [i]))
      ⟨some (strLit "nowhere"), none, none⟩).2.2.2.2.2
  exact h (strLit "nowhere") (by decide) (by decide)

end SvModular
